import Mathlib

/-!
Verification development for the moodle-quiz-archive-worker core.

The definitions below are shallow embeddings of the Python source under
src/: pure data and control flow are translated into executable Lean
functions; machine integers are Nat; code that raises exceptions is
modelled with Except/Option; the process-wide queue is modelled by its
length (the HTTP handlers run one at a time in the model, matching the
single request considered by each claim).
-/

/-- Job status values, from src/archiveworker/custom_types.py (JobStatus). -/
inductive JobStatus where
  | UNINITIALIZED
  | AWAITING_PROCESSING
  | RUNNING
  | WAITING_FOR_BACKUP
  | FINALIZING
  | FINISHED
  | FAILED
  | TIMEOUT
  deriving DecidableEq, Repr

/-- Worker status values, from src/archiveworker/custom_types.py (WorkerStatus). -/
inductive WorkerStatus where
  | IDLE
  | ACTIVE
  | BUSY
  | UNKNOWN
  deriving DecidableEq, Repr

/-- Backup status values, from src/archiveworker/custom_types.py (BackupStatus);
the wire strings are PENDING = "E_BACKUP_PENDING", FAILED = "E_BACKUP_FAILED",
SUCCESS = "SUCCESS". -/
inductive MoodleBackupStatus where
  | PENDING
  | FAILED
  | SUCCESS
  deriving DecidableEq, Repr

/-- The status computation of handle_status
(src/archiveworker/moodle_quiz_archive_worker.py lines 94-103): IDLE when the
queue is empty, ACTIVE when qsize is below QUEUE_SIZE, BUSY when the queue is
full (qsize at least QUEUE_SIZE), UNKNOWN otherwise. -/
def workerStatusOf (queueSize qlen : Nat) : WorkerStatus :=
  if qlen = 0 then WorkerStatus.IDLE
  else if qlen < queueSize then WorkerStatus.ACTIVE
  else if queueSize ≤ qlen then WorkerStatus.BUSY
  else WorkerStatus.UNKNOWN

/-- The GET /status response body of handle_status: the derived worker status
together with the current queue length. -/
def handleStatus (queueSize qlen : Nat) : WorkerStatus × Nat :=
  (workerStatusOf queueSize qlen, qlen)

/-- C7: for every queue length q at the time GET /status is handled (q never
exceeds the bounded queue capacity), the reported status is IDLE iff q = 0,
BUSY iff q = QUEUE_SIZE, ACTIVE iff 0 < q < QUEUE_SIZE, never UNKNOWN, and the
response carries the queue length. -/
theorem handle_status_spec (queueSize qlen : Nat) (hpos : 0 < queueSize)
    (hle : qlen ≤ queueSize) :
    ((handleStatus queueSize qlen).1 = WorkerStatus.IDLE ↔ qlen = 0) ∧
    ((handleStatus queueSize qlen).1 = WorkerStatus.BUSY ↔ qlen = queueSize) ∧
    ((handleStatus queueSize qlen).1 = WorkerStatus.ACTIVE ↔
      (0 < qlen ∧ qlen < queueSize)) ∧
    (handleStatus queueSize qlen).1 ≠ WorkerStatus.UNKNOWN ∧
    (handleStatus queueSize qlen).2 = qlen := by
  unfold handleStatus workerStatusOf
  split_ifs with h1 h2 h3 <;> simp_all <;> omega

/-- Witness for handle_status_spec at queue capacity 8 and queue length 3. -/
theorem handle_status_spec_witness :
    ((handleStatus 8 3).1 = WorkerStatus.IDLE ↔ (3 : Nat) = 0) ∧
    ((handleStatus 8 3).1 = WorkerStatus.BUSY ↔ (3 : Nat) = 8) ∧
    ((handleStatus 8 3).1 = WorkerStatus.ACTIVE ↔ ((0 : Nat) < 3 ∧ (3 : Nat) < 8)) ∧
    (handleStatus 8 3).1 ≠ WorkerStatus.UNKNOWN ∧
    (handleStatus 8 3).2 = 3 :=
  handle_status_spec 8 3 (by decide) (by decide)

/-- Outcomes of decoding the POSTed JSON into an ArchiveJobDescriptor
(apicls.from_raw_request_data in _handle_archive_request): either a valid
descriptor was produced, or one of the exception classes caught by the
handler was raised (src/archiveworker/moodle_quiz_archive_worker.py
lines 175-193). -/
inductive DecodeOutcome where
  | ok
  | typeError
  | keyError
  | valueError
  | connectionError
  | otherError
  deriving DecidableEq, Repr

/-- Outcome of the job_descriptor.moodle_api.check_connection() probe: a
boolean result, or a raised ConnectionError (both caught by the handler). -/
inductive ProbeOutcome where
  | conn (ok : Bool)
  | raisedConnError
  deriving DecidableEq, Repr

/-- Result of one admission call: HTTP status code, queue length afterwards,
and whether a job was enqueued. -/
structure AdmissionResult where
  httpStatus : Nat
  qlenAfter : Nat
  enqueued : Bool
  deriving DecidableEq, Repr

/-- The admission handler _handle_archive_request
(src/archiveworker/moodle_quiz_archive_worker.py lines 145-199): reject
non-JSON bodies with 400; decode the payload (TypeError / KeyError /
ValueError / ConnectionError / any other exception map to 400); reject with
429 when job_queue.full(); reject with 400 when the Moodle probe returns
false (a raised ConnectionError also maps to 400); otherwise construct the
job and put_nowait it (queue.Full maps to 429), append it to the history,
set AWAITING_PROCESSING without notifying Moodle, and return 200. The steps
after a successful put_nowait (history append, set_status with
notify_moodle=False) cannot raise. A Python Queue with maxsize = queueSize
is full iff its length is at least queueSize. -/
def handleArchiveRequest (queueSize : Nat) (isJson : Bool)
    (decode : DecodeOutcome) (probe : ProbeOutcome) (qlen : Nat) :
    AdmissionResult :=
  if isJson = false then ⟨400, qlen, false⟩
  else
    match decode with
    | DecodeOutcome.typeError => ⟨400, qlen, false⟩
    | DecodeOutcome.keyError => ⟨400, qlen, false⟩
    | DecodeOutcome.valueError => ⟨400, qlen, false⟩
    | DecodeOutcome.connectionError => ⟨400, qlen, false⟩
    | DecodeOutcome.otherError => ⟨400, qlen, false⟩
    | DecodeOutcome.ok =>
      if queueSize ≤ qlen then ⟨429, qlen, false⟩
      else
        match probe with
        | ProbeOutcome.raisedConnError => ⟨400, qlen, false⟩
        | ProbeOutcome.conn false => ⟨400, qlen, false⟩
        | ProbeOutcome.conn true =>
          if qlen < queueSize then ⟨200, qlen + 1, true⟩
          else ⟨429, qlen, false⟩

/-- C1: a POST to an /archive endpoint returns 200 iff the body was JSON that
decoded into a valid job descriptor, the host probe returned true, and the
queue had free capacity; every response is one of 200, 400, 429; 429 occurs
exactly when a validly decoded request met a full queue; a job is enqueued
iff the response is 200, and the queue length grows by one exactly then. -/
theorem handle_archive_request_admission_spec (queueSize qlen : Nat)
    (isJson : Bool) (decode : DecodeOutcome) (probe : ProbeOutcome) :
    let r := handleArchiveRequest queueSize isJson decode probe qlen
    (r.httpStatus = 200 ↔
      (isJson = true ∧ decode = DecodeOutcome.ok ∧
        probe = ProbeOutcome.conn true ∧ qlen < queueSize)) ∧
    (r.httpStatus = 200 ∨ r.httpStatus = 400 ∨ r.httpStatus = 429) ∧
    (r.httpStatus = 429 ↔
      (isJson = true ∧ decode = DecodeOutcome.ok ∧ queueSize ≤ qlen)) ∧
    (r.enqueued = true ↔ r.httpStatus = 200) ∧
    (r.qlenAfter = if r.httpStatus = 200 then qlen + 1 else qlen) := by
  cases isJson <;> cases decode <;>
    rcases probe with ⟨_ | _⟩ | _ <;>
    simp only [handleArchiveRequest] <;>
    split_ifs <;> simp_all

/-- The chunk size passed to the streaming iterator in download_moodle_file:
the Python source computes int(32 * 10e6) and comments it as 32 MB
(src/archiveworker/api/moodle/base.py line 214 and
src/archiveworker/moodle_api.py line 267); Python 10e6 is 10^7. -/
def downloadChunksize : Nat := 32 * 10000000

/-- C6: the streaming chunk size is not 32 megabytes; it is 320000000 bytes
(320 MB), ten times the 32 MB announced by the comment on the same line and
by the spec (neither 32 * 10^6 nor 32 * 2^20). -/
theorem download_chunksize_not_32mb :
    downloadChunksize = 320000000 ∧
    downloadChunksize ≠ 32 * 1000000 ∧
    downloadChunksize ≠ 32 * 1024 * 1024 ∧
    downloadChunksize = 10 * (32 * 1000000) := by decide

/-- The byte-accounting loop of download_moodle_file
(src/archiveworker/api/moodle/base.py lines 214-219 and
src/archiveworker/moodle_api.py lines 267-272): for each incoming chunk,
first compare the byte count already written against maxsize_bytes and raise
the oversize RuntimeError (carrying the bytes already on disk) if it is
strictly larger; otherwise write the chunk and add its length. Chunks are
modelled by their byte counts. -/
def downloadLoopGo (maxsize : Nat) : List Nat → Nat → Except Nat Nat
  | [], acc => Except.ok acc
  | c :: rest, acc =>
    if maxsize < acc then Except.error acc
    else downloadLoopGo maxsize rest (acc + c)

/-- The full download loop, starting from zero downloaded bytes. -/
def downloadLoop (chunks : List Nat) (maxsize : Nat) : Except Nat Nat :=
  downloadLoopGo maxsize chunks 0

/-- Every chunk yielded by iter_content is at most the requested chunk size. -/
def ChunksBounded (chunks : List Nat) (chunklimit : Nat) : Prop :=
  ∀ c ∈ chunks, c ≤ chunklimit

/-- Helper: the loop succeeds and returns the total when the running byte
count never exceeds the cap. -/
theorem downloadLoopGo_ok (maxsize : Nat) (chunks : List Nat) (acc : Nat)
    (h : acc + chunks.sum ≤ maxsize) :
    downloadLoopGo maxsize chunks acc = Except.ok (acc + chunks.sum) := by
  induction chunks generalizing acc with
  | nil => simp [downloadLoopGo]
  | cons c rest ih =>
    have hacc : ¬ maxsize < acc := by
      simp only [List.sum_cons] at h
      omega
    simp only [downloadLoopGo, hacc, if_false]
    rw [ih (acc + c) (by simp only [List.sum_cons] at h ⊢; omega)]
    simp only [List.sum_cons]
    congr 1
    omega

/-- Helper: when the loop raises the oversize error, the bytes already
written exceed the cap but by at most one full chunk. -/
theorem downloadLoopGo_error (maxsize chunklimit : Nat) :
    ∀ (chunks : List Nat) (acc : Nat), ChunksBounded chunks chunklimit →
      acc ≤ maxsize + chunklimit →
      ∀ written, downloadLoopGo maxsize chunks acc = Except.error written →
        maxsize < written ∧ written ≤ maxsize + chunklimit := by
  intro chunks
  induction chunks with
  | nil => intro acc hb hacc written hw; simp [downloadLoopGo] at hw
  | cons c rest ih =>
    intro acc hb hacc written hw
    by_cases hover : maxsize < acc
    · simp only [downloadLoopGo, hover, if_true] at hw
      cases hw
      exact ⟨hover, hacc⟩
    · simp only [downloadLoopGo, hover, if_false] at hw
      have hc : c ≤ chunklimit := hb c (List.mem_cons_self c rest)
      have hbrest : ChunksBounded rest chunklimit := fun x hx =>
        hb x (List.mem_cons_of_mem c hx)
      exact ih (acc + c) hbrest (by omega) written hw

/-- C10: the oversize check compares the bytes already written before each
chunk against maxsize_bytes, so (a) a download totalling at most
maxsize_bytes never raises the oversize error and is written completely;
(b) when the error is raised, the bytes on disk exceed the cap by at most
one full chunk; (c) a file consisting of a single chunk is always written
completely, whatever its size. -/
theorem download_size_cap_spec (chunks : List Nat) (maxsize chunklimit : Nat)
    (hb : ChunksBounded chunks chunklimit) :
    (chunks.sum ≤ maxsize →
      downloadLoop chunks maxsize = Except.ok chunks.sum) ∧
    (∀ written, downloadLoop chunks maxsize = Except.error written →
      maxsize < written ∧ written ≤ maxsize + chunklimit) ∧
    (∀ c, chunks = [c] → downloadLoop chunks maxsize = Except.ok c) := by
  refine ⟨fun h => ?_, fun written hw => ?_, fun c hc => ?_⟩
  · have := downloadLoopGo_ok maxsize chunks 0 (by omega)
    simpa [downloadLoop] using this
  · exact downloadLoopGo_error maxsize chunklimit chunks 0 hb (by omega) written hw
  · subst hc
    simp [downloadLoop, downloadLoopGo, Nat.not_lt_zero]

/-- Witness for download_size_cap_spec with two 5-byte chunks and a 100-byte
cap. -/
theorem download_size_cap_spec_witness :
    (([5, 5] : List Nat).sum ≤ 100 →
      downloadLoop [5, 5] 100 = Except.ok ([5, 5] : List Nat).sum) ∧
    (∀ written, downloadLoop [5, 5] 100 = Except.error written →
      100 < written ∧ written ≤ 100 + 5) ∧
    (∀ c, ([5, 5] : List Nat) = [c] →
      downloadLoop [5, 5] 100 = Except.ok c) :=
  download_size_cap_spec [5, 5] 100 5 (by intro c hc; fin_cases hc <;> omega)

/-- Abstraction of the Moodle webservice response observed by
MoodleAPI.get_backup_status (src/archiveworker/moodle_api.py lines 169-203):
either the request/JSON decode raised (transportError), or the response
carried errorcode and debuginfo keys (moodleError), or it carried a status
string. -/
inductive WsBackupResponse where
  | transportError
  | moodleError
  | status (s : String)
  deriving DecidableEq, Repr

/-- Exceptions raised by the Moodle API adapter. -/
inductive ApiError where
  | connError
  | runtimeError
  deriving DecidableEq, Repr

/-- MoodleAPI.get_backup_status (src/archiveworker/moodle_api.py lines
169-203): a transport failure raises ConnectionError; an errorcode response
raises RuntimeError; the status strings of BackupStatus map to the enum
values PENDING, SUCCESS and FAILED (in that comparison order), and any other
status string raises RuntimeError. -/
def get_backup_status (resp : WsBackupResponse) :
    Except ApiError MoodleBackupStatus :=
  match resp with
  | WsBackupResponse.transportError => Except.error ApiError.connError
  | WsBackupResponse.moodleError => Except.error ApiError.runtimeError
  | WsBackupResponse.status s =>
    if s = "E_BACKUP_PENDING" then Except.ok MoodleBackupStatus.PENDING
    else if s = "SUCCESS" then Except.ok MoodleBackupStatus.SUCCESS
    else if s = "E_BACKUP_FAILED" then Except.ok MoodleBackupStatus.FAILED
    else Except.error ApiError.runtimeError

/-- What one iteration of the backup wait loop does next. -/
inductive BackupPollStep where
  | raiseError
  | raiseInterrupted
  | finishedPolling
  | continuePolling (setWaiting : Bool)
  deriving DecidableEq, Repr

/-- One iteration of the wait loop in QuizArchiveJob._process_moodle_backup
(src/archiveworker/quiz_archive_job.py lines 562-577): call
get_backup_status (exceptions propagate and fail the subtask); raise
InterruptedError if the stop flag is set; break out of the loop on SUCCESS;
otherwise log a waiting notice, set WAITING_FOR_BACKUP (once, i.e. when the
current job status differs), sleep BACKUP_STATUS_RETRY_SEC seconds and poll
again. -/
def backupPollIteration (resp : WsBackupResponse) (stopRequested : Bool)
    (currentStatus : JobStatus) : BackupPollStep :=
  match get_backup_status resp with
  | Except.error _ => BackupPollStep.raiseError
  | Except.ok st =>
    if stopRequested then BackupPollStep.raiseInterrupted
    else if st = MoodleBackupStatus.SUCCESS then BackupPollStep.finishedPolling
    else
      BackupPollStep.continuePolling
        (decide (currentStatus ≠ JobStatus.WAITING_FOR_BACKUP))

/-- The wait loop of the legacy job engine (src/quiz_archive_job.py lines
476-508): break on status SUCCESS, raise RuntimeError on any status other
than E_BACKUP_PENDING (in particular on E_BACKUP_FAILED), then check the
stop flag and sleep before the next poll. -/
def legacyBackupPollIteration (respStatus : String) (stopRequested : Bool) :
    BackupPollStep :=
  if respStatus = "SUCCESS" then BackupPollStep.finishedPolling
  else if respStatus ≠ "E_BACKUP_PENDING" then BackupPollStep.raiseError
  else if stopRequested then BackupPollStep.raiseInterrupted
  else BackupPollStep.continuePolling true

/-- C5: when get_backup_status returns the terminal FAILED status, the
current wait loop does NOT fail the subtask: it takes the continue-polling
branch (setting WAITING_FOR_BACKUP) and retries at the retry interval
forever, exactly as for PENDING. Only statuses that make get_backup_status
raise (unrecognised strings, error responses) fail the subtask. The legacy
loop in src/quiz_archive_job.py raised an error in exactly this FAILED
case, as the claim and the spec describe. -/
theorem backup_failed_status_keeps_polling :
    get_backup_status (WsBackupResponse.status "E_BACKUP_FAILED") =
      Except.ok MoodleBackupStatus.FAILED ∧
    backupPollIteration (WsBackupResponse.status "E_BACKUP_FAILED") false
      JobStatus.RUNNING = BackupPollStep.continuePolling true ∧
    backupPollIteration (WsBackupResponse.status "E_BACKUP_FAILED") false
      JobStatus.WAITING_FOR_BACKUP = BackupPollStep.continuePolling false ∧
    backupPollIteration (WsBackupResponse.status "E_BACKUP_UNKNOWN_STATE")
      false JobStatus.RUNNING = BackupPollStep.raiseError ∧
    backupPollIteration WsBackupResponse.moodleError false JobStatus.RUNNING =
      BackupPollStep.raiseError ∧
    legacyBackupPollIteration "E_BACKUP_FAILED" false =
      BackupPollStep.raiseError :=
  ⟨rfl, rfl, rfl, rfl, rfl, rfl⟩

/-- The characters forbidden in an archive filename by
ArchiveJobDescriptor.__init__
(src/archiveworker/api/worker/archive_job_descriptor.py line 88). -/
def archiveFilenameForbidden : List Char :=
  [Char.ofNat 0, '\\', '/', ':', '*', '?', '\"', '<', '>', '|', '.']

/-- posixpath.basename: the part of the path after the last '/'. -/
def posixBasename (s : List Char) : List Char :=
  (s.reverse.takeWhile (fun c => c != '/')).reverse

/-- The archive_filename validation of ArchiveJobDescriptor.__init__
(src/archiveworker/api/worker/archive_job_descriptor.py lines 80-89):
reject (raise ValueError) when the name is empty, when
os.path.basename(name) differs from name, or when the name contains one of
the forbidden characters; accept otherwise. Returns true when construction
succeeds with respect to the filename check. -/
def validateArchiveFilename (s : List Char) : Bool :=
  if s.length = 0 then false
  else if posixBasename s = s then
    if archiveFilenameForbidden.any (fun c => s.contains c) then false
    else true
  else false

/-- Helper: takeWhile keeps the whole list when the predicate holds
everywhere. -/
theorem takeWhile_eq_self_of_all {p : Char → Bool} :
    ∀ l : List Char, (∀ a ∈ l, p a = true) → l.takeWhile p = l := by
  intro l
  induction l with
  | nil => intro _; rfl
  | cons a rest ih =>
    intro h
    have ha : p a = true := h a (List.mem_cons_self a rest)
    simp only [List.takeWhile_cons, ha, if_true, List.cons.injEq, true_and]
    exact ih (fun x hx => h x (List.mem_cons_of_mem a hx))

/-- Helper: a name without '/' is its own basename. -/
theorem posixBasename_eq_self (s : List Char) (h : '/' ∉ s) :
    posixBasename s = s := by
  unfold posixBasename
  rw [takeWhile_eq_self_of_all s.reverse, List.reverse_reverse]
  intro a ha
  have : a ∈ s := List.mem_reverse.mp ha
  have : a ≠ '/' := fun hc => h (hc ▸ this)
  simpa using this

/-- C8 counterexample: a filename containing the ASCII control character 0x01
passes the constructor check, although the claim states that every filename
containing a control character raises ValueError. Only the NUL control
character is in the forbidden set. -/
theorem archive_filename_control_char_accepted :
    validateArchiveFilename ['a', Char.ofNat 1, 'b'] = true ∧
    (Char.ofNat 1).toNat < 32 ∧
    Char.ofNat 1 ∉ archiveFilenameForbidden := by decide

/-- C8 (amended): the constructor check rejects a filename iff it is empty or
contains one of the characters NUL \ / : * ? " < > | . and accepts every
other filename; the basename test adds nothing beyond the '/' character
already in the forbidden set, and control characters other than NUL are not
rejected. -/
theorem archive_filename_validation_spec (s : List Char) :
    validateArchiveFilename s = true ↔
      (s ≠ [] ∧ ∀ c ∈ s, c ∉ archiveFilenameForbidden) := by
  constructor
  · intro h
    by_cases h1 : s.length = 0
    · unfold validateArchiveFilename at h
      rw [if_pos h1] at h
      exact absurd h (by simp)
    · by_cases h2 : posixBasename s = s
      · by_cases h3 : archiveFilenameForbidden.any (fun c => s.contains c) = true
        · unfold validateArchiveFilename at h
          rw [if_neg h1, if_pos h2, if_pos h3] at h
          exact absurd h (by simp)
        · refine ⟨fun hnil => h1 (by simp [hnil]), fun c hc hforb => ?_⟩
          refine h3 (List.any_eq_true.mpr ⟨c, hforb, ?_⟩)
          simpa [List.contains] using List.elem_iff.mpr hc
      · unfold validateArchiveFilename at h
        rw [if_neg h1, if_neg h2] at h
        exact absurd h (by simp)
  · rintro ⟨hne, hall⟩
    have hslash : '/' ∉ s := fun hs =>
      hall '/' hs (by simp [archiveFilenameForbidden])
    have hbase := posixBasename_eq_self s hslash
    have hlen : ¬ s.length = 0 := fun h0 => hne (List.length_eq_zero.mp h0)
    have hany : ¬ archiveFilenameForbidden.any (fun c => s.contains c) = true := by
      intro hy
      obtain ⟨c, hcforb, hcs⟩ := List.any_eq_true.mp hy
      have hmem : c ∈ s := by
        have := hcs
        simpa [List.contains, List.elem_iff] using this
      exact hall c hmem hcforb
    unfold validateArchiveFilename
    rw [if_neg hlen, if_pos hbase, if_neg hany]

/-- Paper formats accepted for attempt rendering
(src/archiveworker/custom_types.py PAPER_FORMATS). -/
inductive PaperFormat where
  | A0 | A1 | A2 | A3 | A4 | A5 | A6 | Letter | Legal | Tabloid | Ledger
  deriving DecidableEq, Repr

/-- Image optimization parameters of the quiz_attempts task
(src/archiveworker/api/worker/archive_job_descriptor.py lines 144-148). -/
structure ImageOptimize where
  width : Int
  height : Int
  quality : Int
  deriving DecidableEq, Repr

/-- The quiz_attempts task slot of the descriptor tasks mapping
(src/archiveworker/api/worker/archive_job_descriptor.py lines 135-149). -/
structure QuizAttemptsTask where
  attemptids : List Int
  sections : List (String × String)
  fetch_metadata : Bool
  fetch_attachments : Bool
  paper_format : PaperFormat
  keep_html_files : Bool
  foldername_pattern : String
  filename_pattern : String
  image_optimize : Option ImageOptimize
  deriving DecidableEq, Repr

/-- One entry of the moodle_backups task slot
(src/archiveworker/api/worker/archive_job_descriptor.py lines 182-186). -/
structure MoodleBackupTask where
  backupid : String
  filename : String
  file_download_url : String
  deriving DecidableEq, Repr

/-- The validated internal archive job descriptor
(src/archiveworker/api/worker/archive_job_descriptor.py): target identity,
archive filename and the two optional task slots. The bound Moodle API
handle is configuration only and is not touched by the operations modelled
here. -/
structure JobDescriptor where
  archive_filename : String
  taskid : Option Int
  courseid : Option Int
  cmid : Option Int
  quizid : Option Int
  quiz_attempts : Option QuizAttemptsTask
  moodle_backups : Option (List MoodleBackupTask)
  deriving DecidableEq, Repr

/-- The effect of QuizArchiveJob.__init__ on its descriptor
(src/archiveworker/quiz_archive_job.py lines 60-65): when Config.DEMO_MODE
is enabled and the quiz_attempts task is present with more than 10
attemptids, the descriptor attemptids list is truncated in place to its
first 10 entries; in every other case the descriptor is left untouched. -/
def quizArchiveJobInitDescr (demoMode : Bool) (d : JobDescriptor) :
    JobDescriptor :=
  if demoMode then
    match d.quiz_attempts with
    | some task =>
      if 10 < task.attemptids.length then
        { d with quiz_attempts := some ({ task with attemptids := task.attemptids.take 10 }) }
      else d
    | none => d
  else d

/-- A concrete descriptor with 11 attempt ids, as decoded from a valid
request. -/
def demoDescr : JobDescriptor :=
  { archive_filename := "quiz-archive"
    taskid := none
    courseid := some 1
    cmid := some 1
    quizid := some 1
    quiz_attempts := some
      { attemptids := [1, 2, 3, 4, 5, 6, 7, 8, 9, 10, 11]
        sections := [("header", "1")]
        fetch_metadata := true
        fetch_attachments := true
        paper_format := PaperFormat.A4
        keep_html_files := false
        foldername_pattern := "attempt-id"
        filename_pattern := "attempt-id"
        image_optimize := none }
    moodle_backups := none }

/-- C9 counterexample: with demo mode enabled, constructing a QuizArchiveJob
mutates the descriptor: the attemptids list of its tasks mapping is
truncated from 11 entries to the first 10, so the descriptor is not
immutable after construction. -/
theorem demo_mode_truncates_descriptor :
    quizArchiveJobInitDescr true demoDescr ≠ demoDescr ∧
    (match (quizArchiveJobInitDescr true demoDescr).quiz_attempts with
      | some t => t.attemptids
      | none => []) = [1, 2, 3, 4, 5, 6, 7, 8, 9, 10] := by decide

/-- Helper: QuizArchiveJob construction leaves the descriptor unchanged
unless demo mode is on and the quiz_attempts task holds more than 10
attemptids; all attributes except the quiz_attempts slot are always
preserved, and the quiz_attempts slot is exactly the original with
attemptids truncated to the first 10 when demo mode is on (truncation to 10
is the identity for lists of at most 10 entries). -/
theorem jobInitDescr_frame_aux (demoMode : Bool) (d : JobDescriptor) :
    (quizArchiveJobInitDescr demoMode d = d ↔
      (demoMode = false ∨ d.quiz_attempts = none ∨
        ∃ t, d.quiz_attempts = some t ∧ t.attemptids.length ≤ 10)) ∧
    (quizArchiveJobInitDescr demoMode d).archive_filename =
      d.archive_filename ∧
    (quizArchiveJobInitDescr demoMode d).taskid = d.taskid ∧
    (quizArchiveJobInitDescr demoMode d).courseid = d.courseid ∧
    (quizArchiveJobInitDescr demoMode d).cmid = d.cmid ∧
    (quizArchiveJobInitDescr demoMode d).quizid = d.quizid ∧
    (quizArchiveJobInitDescr demoMode d).moodle_backups = d.moodle_backups ∧
    (quizArchiveJobInitDescr demoMode d).quiz_attempts =
      (if demoMode then
        d.quiz_attempts.map
          (fun t => { t with attemptids := t.attemptids.take 10 })
      else d.quiz_attempts) := by
  cases demoMode with
  | false => simp [quizArchiveJobInitDescr]
  | true =>
    cases hq : d.quiz_attempts with
    | none =>
      have hinit : quizArchiveJobInitDescr true d = d := by
        simp [quizArchiveJobInitDescr, hq]
      simp [hinit, hq]
    | some t =>
      by_cases hlen : 10 < t.attemptids.length
      · have hinit : quizArchiveJobInitDescr true d =
            { d with quiz_attempts := some ({ t with attemptids := t.attemptids.take 10 }) } := by
          simp [quizArchiveJobInitDescr, hq, hlen]
        refine ⟨?_, by rw [hinit], by rw [hinit], by rw [hinit],
          by rw [hinit], by rw [hinit], by rw [hinit], ?_⟩
        · constructor
          · intro heq
            exfalso
            have hqa := congrArg JobDescriptor.quiz_attempts heq
            rw [hinit, hq] at hqa
            simp only at hqa
            injection hqa with h2
            have hlens := congrArg List.length
              (congrArg QuizAttemptsTask.attemptids h2)
            simp only [List.length_take] at hlens
            omega
          · rintro (hfalse | hnone | ⟨t2, ht2, hle⟩)
            · exact absurd hfalse (by simp)
            · exact Option.noConfusion hnone
            · injection ht2 with h2
              subst h2
              omega
        · rw [hinit]
          simp
      · have htake : t.attemptids.take 10 = t.attemptids :=
          List.take_of_length_le (by omega)
        have hinit : quizArchiveJobInitDescr true d = d := by
          simp [quizArchiveJobInitDescr, hq, hlen]
        refine ⟨?_, by rw [hinit], by rw [hinit], by rw [hinit],
          by rw [hinit], by rw [hinit], by rw [hinit], ?_⟩
        · exact iff_of_true hinit (Or.inr (Or.inr ⟨t, rfl, by omega⟩))
        · rw [hinit, hq]
          simp [htake]

/-- How a pipeline stage of QuizArchiveJob.execute ends: complete normally,
raise InterruptedError after observing the cooperative stop flag, or raise
any other exception. -/
inductive StageFate where
  | ok
  | interrupted
  | errored
  deriving DecidableEq, Repr

/-- The terminal (status, notify_moodle) pair produced when a stage aborts
with the given fate, per the except clauses of QuizArchiveJob.execute
(src/archiveworker/quiz_archive_job.py lines 194-201): InterruptedError
maps to TIMEOUT with notification, any other exception to FAILED with
notification; no abort for a completed stage. -/
def fateAbort : StageFate → Option (JobStatus × Bool)
  | StageFate.ok => none
  | StageFate.interrupted => some (JobStatus.TIMEOUT, true)
  | StageFate.errored => some (JobStatus.FAILED, true)

/-- One run of QuizArchiveJob.execute, abstracted stage by stage. Each stage
is summarised by the set_status calls it performed before returning or
raising, and by its fate. The fields reflect the code paths of
src/archiveworker/quiz_archive_job.py:

* progressReports: number of periodic RUNNING progress updates emitted by
  _process_quiz_attempts (lines 250-258), each a set_status(RUNNING,
  notify_moodle=True); zero when the quiz_attempts task is absent.
* attemptsFate: fate of _process_quiz_attempts (a skipped stage is ok).
* metadataFate: fate of _process_quiz_attempts_metadata, which sets no
  status.
* backupWaitReported: whether some backup subtask executed
  set_status(WAITING_FOR_BACKUP, notify_moodle=True) (lines 573-574); the
  guard on the current status and the absence of awaits between guard and
  set make this happen at most once per job.
* backupsFate: fate of _process_moodle_backups.
* hashingFate: fate of the hash-every-file loop (lines 156-168), whose stop
  flag check can raise InterruptedError; the preceding
  set_status(FINALIZING, notify_moodle=True) at line 153 cannot raise
  because update_job_status swallows every exception.
* packagingFate: fate of archive creation, checksumming and
  _push_artifact_to_moodle (lines 170-192). -/
structure ExecScenario where
  progressReports : Nat
  attemptsFate : StageFate
  metadataFate : StageFate
  backupWaitReported : Bool
  backupsFate : StageFate
  hashingFate : StageFate
  packagingFate : StageFate
  deriving DecidableEq, Repr

/-- Run a list of stages in order: concatenate the status updates emitted up
to and including the first aborting stage, and report that stage's terminal
abort, if any. -/
def runStages :
    List (List (JobStatus × Bool) × StageFate) →
      List (JobStatus × Bool) × Option (JobStatus × Bool)
  | [] => ([], none)
  | (emit, f) :: rest =>
    match fateAbort f with
    | some t => (emit, some t)
    | none => (emit ++ (runStages rest).1, (runStages rest).2)

/-- The stages of QuizArchiveJob.execute in program order, with the status
updates each one emits. -/
def scenarioStages (s : ExecScenario) :
    List (List (JobStatus × Bool) × StageFate) :=
  [ (List.replicate s.progressReports (JobStatus.RUNNING, true),
      s.attemptsFate),
    ([], s.metadataFate),
    ((if s.backupWaitReported then [(JobStatus.WAITING_FOR_BACKUP, true)]
      else []), s.backupsFate),
    ([(JobStatus.FINALIZING, true)], StageFate.ok),
    ([], s.hashingFate),
    ([], s.packagingFate) ]

/-- The (status, notify_moodle) pairs passed to set_status during one
execution of QuizArchiveJob.execute: the initial
set_status(RUNNING, progress 0, notify_moodle=True) at line 134, then the
stage updates up to the first abort, then the terminal set_status: the
abort status for InterruptedError or another exception, else
set_status(FINISHED, notify_moodle=False) at line 203. -/
def executeTrace (s : ExecScenario) : List (JobStatus × Bool) :=
  ((JobStatus.RUNNING, true) :: (runStages (scenarioStages s)).1) ++
    [((runStages (scenarioStages s)).2).getD (JobStatus.FINISHED, false)]

/-- The first non-ok stage fate of a scenario, in program order; ok when
every stage completed. -/
def scenarioOutcome (s : ExecScenario) : StageFate :=
  match s.attemptsFate with
  | StageFate.ok =>
    match s.metadataFate with
    | StageFate.ok =>
      match s.backupsFate with
      | StageFate.ok =>
        match s.hashingFate with
        | StageFate.ok => s.packagingFate
        | f => f
      | f => f
    | f => f
  | f => f

/-- All status values assigned to a job in the RACE-FREE schedule:
UNINITIALIZED from QuizArchiveJob.__init__, AWAITING_PROCESSING from the
admission handler (notify_moodle=False), then the statuses set during
execute. The handler enqueues the job with put_nowait
(moodle_quiz_archive_worker.py line 171) BEFORE it sets AWAITING_PROCESSING
(line 173), so the worker thread may dequeue the job and start execute in
between; this definition is the schedule in which the handler's assignment
lands first, and jobStatusTraceRaced below models the other interleavings
the code permits. -/
def jobStatusTrace (s : ExecScenario) : List JobStatus :=
  JobStatus.UNINITIALIZED :: JobStatus.AWAITING_PROCESSING ::
    (executeTrace s).map Prod.fst

/-- C2: when QuizArchiveJob.execute terminates, the last set_status call is
exactly TIMEOUT with host notification if the first failing stage observed
the stop flag, FAILED with host notification if the first failing stage
raised any other exception, and FINISHED without host notification when all
stages completed. -/
theorem execute_terminal_status_spec (s : ExecScenario) :
    (executeTrace s).getLast? = some
      (match scenarioOutcome s with
        | StageFate.interrupted => (JobStatus.TIMEOUT, true)
        | StageFate.errored => (JobStatus.FAILED, true)
        | StageFate.ok => (JobStatus.FINISHED, false)) := by
  obtain ⟨k, f1, f2, bw, f3, f4, f5⟩ := s
  unfold executeTrace
  rw [List.getLast?_concat]
  cases f1 <;> cases f2 <;> cases f3 <;> cases f4 <;> cases f5 <;>
    simp [runStages, scenarioStages, scenarioOutcome, fateAbort]

/-- Whether a job status is terminal (FINISHED, FAILED or TIMEOUT). -/
def JobStatus.isTerminal : JobStatus → Bool
  | JobStatus.FINISHED => true
  | JobStatus.FAILED => true
  | JobStatus.TIMEOUT => true
  | _ => false

/-- Statuses allowed in the middle section of the lifecycle word, i.e. the
(WAITING_FOR_BACKUP? RUNNING?)* part of the claimed lifecycle. -/
def isMidStatus : JobStatus → Bool
  | JobStatus.RUNNING => true
  | JobStatus.WAITING_FOR_BACKUP => true
  | _ => false

/-- A full successful lifecycle word: UNINITIALIZED, AWAITING_PROCESSING,
RUNNING, a middle section of RUNNING/WAITING_FOR_BACKUP repetitions,
FINALIZING, FINISHED. -/
def lifecycleWord (mid : List JobStatus) : List JobStatus :=
  [JobStatus.UNINITIALIZED, JobStatus.AWAITING_PROCESSING,
    JobStatus.RUNNING] ++ mid ++ [JobStatus.FINALIZING, JobStatus.FINISHED]

/-- The status sequence of the claim: either a full lifecycle word, or an
initial segment of one followed by FAILED or TIMEOUT. -/
def LifecycleOk (t : List JobStatus) : Prop :=
  ∃ mid : List JobStatus, (∀ x ∈ mid, isMidStatus x = true) ∧
    (t = lifecycleWord mid ∨
      ∃ p rest, p ++ rest = lifecycleWord mid ∧
        (t = p ++ [JobStatus.FAILED] ∨ t = p ++ [JobStatus.TIMEOUT]))

/-- The trace ends with a terminal status and no earlier entry is terminal:
a terminal status, once assigned, is never overwritten. -/
def TerminalOnlyLast (t : List JobStatus) : Prop :=
  ∃ p last, t = p ++ [last] ∧ last.isTerminal = true ∧
    ∀ y ∈ p, y.isTerminal = false

/-- Helper: a middle-section status is not terminal. -/
theorem mid_not_terminal (x : JobStatus) (h : isMidStatus x = true) :
    x.isTerminal = false := by
  cases x <;> simp_all [isMidStatus, JobStatus.isTerminal]

/-- Helper: RUNNING progress repetitions are valid middle-section statuses. -/
theorem mid_ok_replicate (k : Nat) :
    ∀ x ∈ List.replicate k JobStatus.RUNNING, isMidStatus x = true :=
  fun _ hx => by rw [List.eq_of_mem_replicate hx]; rfl

/-- Helper: RUNNING repetitions followed by one WAITING_FOR_BACKUP are valid
middle-section statuses. -/
theorem mid_ok_replicate_wait (k : Nat) :
    ∀ x ∈ List.replicate k JobStatus.RUNNING ++
      [JobStatus.WAITING_FOR_BACKUP], isMidStatus x = true := by
  intro x hx
  rcases List.mem_append.mp hx with h | h
  · rw [List.eq_of_mem_replicate h]; rfl
  · simp only [List.mem_singleton] at h
    subst h; rfl

/-- Helper: a trace that aborts before FINALIZING satisfies the lifecycle
property. -/
theorem lifecycle_shape_abort (m : List JobStatus)
    (hm : ∀ x ∈ m, isMidStatus x = true) (t : JobStatus)
    (ht : t = JobStatus.FAILED ∨ t = JobStatus.TIMEOUT) :
    LifecycleOk ([JobStatus.UNINITIALIZED, JobStatus.AWAITING_PROCESSING,
        JobStatus.RUNNING] ++ m ++ [t]) ∧
    TerminalOnlyLast ([JobStatus.UNINITIALIZED, JobStatus.AWAITING_PROCESSING,
        JobStatus.RUNNING] ++ m ++ [t]) := by
  constructor
  · refine ⟨m, hm, Or.inr ⟨[JobStatus.UNINITIALIZED,
      JobStatus.AWAITING_PROCESSING, JobStatus.RUNNING] ++ m,
      [JobStatus.FINALIZING, JobStatus.FINISHED], ?_, ?_⟩⟩
    · simp [lifecycleWord]
    · rcases ht with h | h
      · left; rw [h]
      · right; rw [h]
  · refine ⟨[JobStatus.UNINITIALIZED, JobStatus.AWAITING_PROCESSING,
      JobStatus.RUNNING] ++ m, t, rfl, ?_, ?_⟩
    · rcases ht with h | h <;> rw [h] <;> rfl
    · intro y hy
      rcases List.mem_append.mp hy with h | h
      · simp only [List.mem_cons, List.mem_singleton,
          List.not_mem_nil, or_false] at h
        rcases h with h | h | h <;> subst h <;> rfl
      · exact mid_not_terminal y (hm y h)

/-- Helper: a trace that aborts after FINALIZING satisfies the lifecycle
property. -/
theorem lifecycle_shape_late (m : List JobStatus)
    (hm : ∀ x ∈ m, isMidStatus x = true) (t : JobStatus)
    (ht : t = JobStatus.FAILED ∨ t = JobStatus.TIMEOUT) :
    LifecycleOk ([JobStatus.UNINITIALIZED, JobStatus.AWAITING_PROCESSING,
        JobStatus.RUNNING] ++ m ++ [JobStatus.FINALIZING, t]) ∧
    TerminalOnlyLast ([JobStatus.UNINITIALIZED, JobStatus.AWAITING_PROCESSING,
        JobStatus.RUNNING] ++ m ++ [JobStatus.FINALIZING, t]) := by
  constructor
  · refine ⟨m, hm, Or.inr ⟨[JobStatus.UNINITIALIZED,
      JobStatus.AWAITING_PROCESSING, JobStatus.RUNNING] ++ m ++
      [JobStatus.FINALIZING], [JobStatus.FINISHED], ?_, ?_⟩⟩
    · simp [lifecycleWord]
    · rcases ht with h | h
      · left; rw [h]; simp
      · right; rw [h]; simp
  · refine ⟨[JobStatus.UNINITIALIZED, JobStatus.AWAITING_PROCESSING,
      JobStatus.RUNNING] ++ m ++ [JobStatus.FINALIZING], t, by simp, ?_, ?_⟩
    · rcases ht with h | h <;> rw [h] <;> rfl
    · intro y hy
      rcases List.mem_append.mp hy with h | h
      · rcases List.mem_append.mp h with h1 | h1
        · simp only [List.mem_cons, List.mem_singleton,
            List.not_mem_nil, or_false] at h1
          rcases h1 with h1 | h1 | h1 <;> subst h1 <;> rfl
        · exact mid_not_terminal y (hm y h1)
      · simp only [List.mem_singleton] at h
        subst h; rfl

/-- Helper: a completed trace is a full lifecycle word and satisfies the
lifecycle property. -/
theorem lifecycle_shape_success (m : List JobStatus)
    (hm : ∀ x ∈ m, isMidStatus x = true) :
    LifecycleOk (lifecycleWord m) ∧ TerminalOnlyLast (lifecycleWord m) := by
  constructor
  · exact ⟨m, hm, Or.inl rfl⟩
  · refine ⟨[JobStatus.UNINITIALIZED, JobStatus.AWAITING_PROCESSING,
      JobStatus.RUNNING] ++ m ++ [JobStatus.FINALIZING], JobStatus.FINISHED,
      by simp [lifecycleWord], rfl, ?_⟩
    intro y hy
    rcases List.mem_append.mp hy with h | h
    · rcases List.mem_append.mp h with h1 | h1
      · simp only [List.mem_cons, List.mem_singleton,
          List.not_mem_nil, or_false] at h1
        rcases h1 with h1 | h1 | h1 <;> subst h1 <;> rfl
      · exact mid_not_terminal y (hm y h1)
    · simp only [List.mem_singleton] at h
      subst h; rfl

/-- Helper: in the race-free schedule, every scenario trace is a full
lifecycle word or an initial segment of one ending in FAILED or TIMEOUT,
and the trace ends at its unique terminal status. -/
theorem jobStatusTrace_lifecycle_aux (s : ExecScenario) :
    LifecycleOk (jobStatusTrace s) ∧ TerminalOnlyLast (jobStatusTrace s) := by
  obtain ⟨k, f1, f2, bw, f3, f4, f5⟩ := s
  cases f1 with
  | interrupted =>
    have htr : jobStatusTrace ⟨k, StageFate.interrupted, f2, bw, f3, f4, f5⟩ =
        [JobStatus.UNINITIALIZED, JobStatus.AWAITING_PROCESSING,
          JobStatus.RUNNING] ++ List.replicate k JobStatus.RUNNING ++
          [JobStatus.TIMEOUT] := by
      simp [jobStatusTrace, executeTrace, runStages, scenarioStages, fateAbort]
    rw [htr]
    exact lifecycle_shape_abort _ (mid_ok_replicate k) _ (Or.inr rfl)
  | errored =>
    have htr : jobStatusTrace ⟨k, StageFate.errored, f2, bw, f3, f4, f5⟩ =
        [JobStatus.UNINITIALIZED, JobStatus.AWAITING_PROCESSING,
          JobStatus.RUNNING] ++ List.replicate k JobStatus.RUNNING ++
          [JobStatus.FAILED] := by
      simp [jobStatusTrace, executeTrace, runStages, scenarioStages, fateAbort]
    rw [htr]
    exact lifecycle_shape_abort _ (mid_ok_replicate k) _ (Or.inl rfl)
  | ok =>
    cases f2 with
    | interrupted =>
      have htr : jobStatusTrace
          ⟨k, StageFate.ok, StageFate.interrupted, bw, f3, f4, f5⟩ =
          [JobStatus.UNINITIALIZED, JobStatus.AWAITING_PROCESSING,
            JobStatus.RUNNING] ++ List.replicate k JobStatus.RUNNING ++
            [JobStatus.TIMEOUT] := by
        simp [jobStatusTrace, executeTrace, runStages, scenarioStages,
          fateAbort]
      rw [htr]
      exact lifecycle_shape_abort _ (mid_ok_replicate k) _ (Or.inr rfl)
    | errored =>
      have htr : jobStatusTrace
          ⟨k, StageFate.ok, StageFate.errored, bw, f3, f4, f5⟩ =
          [JobStatus.UNINITIALIZED, JobStatus.AWAITING_PROCESSING,
            JobStatus.RUNNING] ++ List.replicate k JobStatus.RUNNING ++
            [JobStatus.FAILED] := by
        simp [jobStatusTrace, executeTrace, runStages, scenarioStages,
          fateAbort]
      rw [htr]
      exact lifecycle_shape_abort _ (mid_ok_replicate k) _ (Or.inl rfl)
    | ok =>
      cases f3 with
      | interrupted =>
        cases bw with
        | false =>
          have htr : jobStatusTrace ⟨k, StageFate.ok, StageFate.ok, false,
              StageFate.interrupted, f4, f5⟩ =
              [JobStatus.UNINITIALIZED, JobStatus.AWAITING_PROCESSING,
                JobStatus.RUNNING] ++ List.replicate k JobStatus.RUNNING ++
                [JobStatus.TIMEOUT] := by
            simp [jobStatusTrace, executeTrace, runStages, scenarioStages,
              fateAbort]
          rw [htr]
          exact lifecycle_shape_abort _ (mid_ok_replicate k) _ (Or.inr rfl)
        | true =>
          have htr : jobStatusTrace ⟨k, StageFate.ok, StageFate.ok, true,
              StageFate.interrupted, f4, f5⟩ =
              [JobStatus.UNINITIALIZED, JobStatus.AWAITING_PROCESSING,
                JobStatus.RUNNING] ++ (List.replicate k JobStatus.RUNNING ++
                [JobStatus.WAITING_FOR_BACKUP]) ++ [JobStatus.TIMEOUT] := by
            simp [jobStatusTrace, executeTrace, runStages, scenarioStages,
              fateAbort]
          rw [htr]
          exact lifecycle_shape_abort _ (mid_ok_replicate_wait k) _
            (Or.inr rfl)
      | errored =>
        cases bw with
        | false =>
          have htr : jobStatusTrace ⟨k, StageFate.ok, StageFate.ok, false,
              StageFate.errored, f4, f5⟩ =
              [JobStatus.UNINITIALIZED, JobStatus.AWAITING_PROCESSING,
                JobStatus.RUNNING] ++ List.replicate k JobStatus.RUNNING ++
                [JobStatus.FAILED] := by
            simp [jobStatusTrace, executeTrace, runStages, scenarioStages,
              fateAbort]
          rw [htr]
          exact lifecycle_shape_abort _ (mid_ok_replicate k) _ (Or.inl rfl)
        | true =>
          have htr : jobStatusTrace ⟨k, StageFate.ok, StageFate.ok, true,
              StageFate.errored, f4, f5⟩ =
              [JobStatus.UNINITIALIZED, JobStatus.AWAITING_PROCESSING,
                JobStatus.RUNNING] ++ (List.replicate k JobStatus.RUNNING ++
                [JobStatus.WAITING_FOR_BACKUP]) ++ [JobStatus.FAILED] := by
            simp [jobStatusTrace, executeTrace, runStages, scenarioStages,
              fateAbort]
          rw [htr]
          exact lifecycle_shape_abort _ (mid_ok_replicate_wait k) _
            (Or.inl rfl)
      | ok =>
        cases f4 with
        | interrupted =>
          cases bw with
          | false =>
            have htr : jobStatusTrace ⟨k, StageFate.ok, StageFate.ok, false,
                StageFate.ok, StageFate.interrupted, f5⟩ =
                [JobStatus.UNINITIALIZED, JobStatus.AWAITING_PROCESSING,
                  JobStatus.RUNNING] ++ List.replicate k JobStatus.RUNNING ++
                  [JobStatus.FINALIZING, JobStatus.TIMEOUT] := by
              simp [jobStatusTrace, executeTrace, runStages, scenarioStages,
                fateAbort]
            rw [htr]
            exact lifecycle_shape_late _ (mid_ok_replicate k) _ (Or.inr rfl)
          | true =>
            have htr : jobStatusTrace ⟨k, StageFate.ok, StageFate.ok, true,
                StageFate.ok, StageFate.interrupted, f5⟩ =
                [JobStatus.UNINITIALIZED, JobStatus.AWAITING_PROCESSING,
                  JobStatus.RUNNING] ++ (List.replicate k JobStatus.RUNNING ++
                  [JobStatus.WAITING_FOR_BACKUP]) ++
                  [JobStatus.FINALIZING, JobStatus.TIMEOUT] := by
              simp [jobStatusTrace, executeTrace, runStages, scenarioStages,
                fateAbort]
            rw [htr]
            exact lifecycle_shape_late _ (mid_ok_replicate_wait k) _
              (Or.inr rfl)
        | errored =>
          cases bw with
          | false =>
            have htr : jobStatusTrace ⟨k, StageFate.ok, StageFate.ok, false,
                StageFate.ok, StageFate.errored, f5⟩ =
                [JobStatus.UNINITIALIZED, JobStatus.AWAITING_PROCESSING,
                  JobStatus.RUNNING] ++ List.replicate k JobStatus.RUNNING ++
                  [JobStatus.FINALIZING, JobStatus.FAILED] := by
              simp [jobStatusTrace, executeTrace, runStages, scenarioStages,
                fateAbort]
            rw [htr]
            exact lifecycle_shape_late _ (mid_ok_replicate k) _ (Or.inl rfl)
          | true =>
            have htr : jobStatusTrace ⟨k, StageFate.ok, StageFate.ok, true,
                StageFate.ok, StageFate.errored, f5⟩ =
                [JobStatus.UNINITIALIZED, JobStatus.AWAITING_PROCESSING,
                  JobStatus.RUNNING] ++ (List.replicate k JobStatus.RUNNING ++
                  [JobStatus.WAITING_FOR_BACKUP]) ++
                  [JobStatus.FINALIZING, JobStatus.FAILED] := by
              simp [jobStatusTrace, executeTrace, runStages, scenarioStages,
                fateAbort]
            rw [htr]
            exact lifecycle_shape_late _ (mid_ok_replicate_wait k) _
              (Or.inl rfl)
        | ok =>
          cases f5 with
          | interrupted =>
            cases bw with
            | false =>
              have htr : jobStatusTrace ⟨k, StageFate.ok, StageFate.ok, false,
                  StageFate.ok, StageFate.ok, StageFate.interrupted⟩ =
                  [JobStatus.UNINITIALIZED, JobStatus.AWAITING_PROCESSING,
                    JobStatus.RUNNING] ++ List.replicate k JobStatus.RUNNING ++
                    [JobStatus.FINALIZING, JobStatus.TIMEOUT] := by
                simp [jobStatusTrace, executeTrace, runStages, scenarioStages,
                  fateAbort]
              rw [htr]
              exact lifecycle_shape_late _ (mid_ok_replicate k) _ (Or.inr rfl)
            | true =>
              have htr : jobStatusTrace ⟨k, StageFate.ok, StageFate.ok, true,
                  StageFate.ok, StageFate.ok, StageFate.interrupted⟩ =
                  [JobStatus.UNINITIALIZED, JobStatus.AWAITING_PROCESSING,
                    JobStatus.RUNNING] ++
                    (List.replicate k JobStatus.RUNNING ++
                    [JobStatus.WAITING_FOR_BACKUP]) ++
                    [JobStatus.FINALIZING, JobStatus.TIMEOUT] := by
                simp [jobStatusTrace, executeTrace, runStages, scenarioStages,
                  fateAbort]
              rw [htr]
              exact lifecycle_shape_late _ (mid_ok_replicate_wait k) _
                (Or.inr rfl)
          | errored =>
            cases bw with
            | false =>
              have htr : jobStatusTrace ⟨k, StageFate.ok, StageFate.ok, false,
                  StageFate.ok, StageFate.ok, StageFate.errored⟩ =
                  [JobStatus.UNINITIALIZED, JobStatus.AWAITING_PROCESSING,
                    JobStatus.RUNNING] ++ List.replicate k JobStatus.RUNNING ++
                    [JobStatus.FINALIZING, JobStatus.FAILED] := by
                simp [jobStatusTrace, executeTrace, runStages, scenarioStages,
                  fateAbort]
              rw [htr]
              exact lifecycle_shape_late _ (mid_ok_replicate k) _ (Or.inl rfl)
            | true =>
              have htr : jobStatusTrace ⟨k, StageFate.ok, StageFate.ok, true,
                  StageFate.ok, StageFate.ok, StageFate.errored⟩ =
                  [JobStatus.UNINITIALIZED, JobStatus.AWAITING_PROCESSING,
                    JobStatus.RUNNING] ++
                    (List.replicate k JobStatus.RUNNING ++
                    [JobStatus.WAITING_FOR_BACKUP]) ++
                    [JobStatus.FINALIZING, JobStatus.FAILED] := by
                simp [jobStatusTrace, executeTrace, runStages, scenarioStages,
                  fateAbort]
              rw [htr]
              exact lifecycle_shape_late _ (mid_ok_replicate_wait k) _
                (Or.inl rfl)
          | ok =>
            cases bw with
            | false =>
              have htr : jobStatusTrace ⟨k, StageFate.ok, StageFate.ok, false,
                  StageFate.ok, StageFate.ok, StageFate.ok⟩ =
                  lifecycleWord (List.replicate k JobStatus.RUNNING) := by
                simp [jobStatusTrace, executeTrace, runStages, scenarioStages,
                  fateAbort, lifecycleWord]
              rw [htr]
              exact lifecycle_shape_success _ (mid_ok_replicate k)
            | true =>
              have htr : jobStatusTrace ⟨k, StageFate.ok, StageFate.ok, true,
                  StageFate.ok, StageFate.ok, StageFate.ok⟩ =
                  lifecycleWord (List.replicate k JobStatus.RUNNING ++
                    [JobStatus.WAITING_FOR_BACKUP]) := by
                simp [jobStatusTrace, executeTrace, runStages, scenarioStages,
                  fateAbort, lifecycleWord]
              rw [htr]
              exact lifecycle_shape_success _ (mid_ok_replicate_wait k)

/-- The word modulus of SHA-256 arithmetic, 2^32. -/
def w32 : Nat := 4294967296

/-- 32-bit modular addition. -/
def add32 (a b : Nat) : Nat := (a + b) % w32

/-- 32-bit right rotation. -/
def rotr32 (n x : Nat) : Nat := ((x >>> n) ||| (x <<< (32 - n))) % w32

/-- SHA-256 big Sigma0. -/
def bSig0 (x : Nat) : Nat := (rotr32 2 x) ^^^ (rotr32 13 x) ^^^ (rotr32 22 x)

/-- SHA-256 big Sigma1. -/
def bSig1 (x : Nat) : Nat := (rotr32 6 x) ^^^ (rotr32 11 x) ^^^ (rotr32 25 x)

/-- SHA-256 small sigma0. -/
def sSig0 (x : Nat) : Nat := (rotr32 7 x) ^^^ (rotr32 18 x) ^^^ (x >>> 3)

/-- SHA-256 small sigma1. -/
def sSig1 (x : Nat) : Nat := (rotr32 17 x) ^^^ (rotr32 19 x) ^^^ (x >>> 10)

/-- SHA-256 choice function; complement is xor with 2^32 - 1. -/
def chF (x y z : Nat) : Nat := (x &&& y) ^^^ ((x ^^^ 4294967295) &&& z)

/-- SHA-256 majority function. -/
def majF (x y z : Nat) : Nat := (x &&& y) ^^^ (x &&& z) ^^^ (y &&& z)

/-- The 64 SHA-256 round constants. -/
def sha256K : List Nat :=
  [1116352408, 1899447441, 3049323471, 3921009573, 961987163, 1508970993,
    2453635748, 2870763221, 3624381080, 310598401, 607225278, 1426881987,
    1925078388, 2162078206, 2614888103, 3248222580, 3835390401, 4022224774,
    264347078, 604807628, 770255983, 1249150122, 1555081692, 1996064986,
    2554220882, 2821834349, 2952996808, 3210313671, 3336571891, 3584528711,
    113926993, 338241895, 666307205, 773529912, 1294757372, 1396182291,
    1695183700, 1986661051, 2177026350, 2456956037, 2730485921, 2820302411,
    3259730800, 3345764771, 3516065817, 3600352804, 4094571909, 275423344,
    430227734, 506948616, 659060556, 883997877, 958139571, 1322822218,
    1537002063, 1747873779, 1955562222, 2024104815, 2227730452, 2361852424,
    2428436474, 2756734187, 3204031479, 3329325298]

/-- The SHA-256 initial hash value. -/
def sha256H0 : List Nat :=
  [1779033703, 3144134277, 1013904242, 2773480762, 1359893119, 2600822924,
    528734635, 1541459225]

/-- One message-schedule extension step: append word W[i] computed from
W[i-2], W[i-7], W[i-15] and W[i-16]. -/
def scheduleStep (w : List Nat) : List Nat :=
  let i := w.length
  w ++ [add32 (add32 (sSig1 (w.getD (i - 2) 0)) (w.getD (i - 7) 0))
          (add32 (sSig0 (w.getD (i - 15) 0)) (w.getD (i - 16) 0))]

/-- Iterate a function n times. -/
def iterN {α : Type} (f : α → α) : Nat → α → α
  | 0, x => x
  | n + 1, x => iterN f n (f x)

/-- Extend a 16-word block to the full 64-word SHA-256 message schedule. -/
def sha256Schedule (block16 : List Nat) : List Nat :=
  iterN scheduleStep 48 block16

/-- One SHA-256 compression round on the 8-word working state. -/
def sha256RoundFn (st : List Nat) (k w : Nat) : List Nat :=
  let a := st.getD 0 0
  let b := st.getD 1 0
  let c := st.getD 2 0
  let d := st.getD 3 0
  let e := st.getD 4 0
  let f := st.getD 5 0
  let g := st.getD 6 0
  let h := st.getD 7 0
  let t1 := add32 h (add32 (bSig1 e) (add32 (chF e f g) (add32 k w)))
  let t2 := add32 (bSig0 a) (majF a b c)
  [add32 t1 t2, a, b, c, add32 d t1, e, f, g]

/-- The SHA-256 compression function for one 16-word block. -/
def sha256Compress (st : List Nat) (block16 : List Nat) : List Nat :=
  let ws := sha256Schedule block16
  let st2 := (sha256K.zip ws).foldl (fun s kw => sha256RoundFn s kw.1 kw.2) st
  List.zipWith add32 st st2

/-- Big-endian byte serialisation of a value into n bytes. -/
def toBytesBE : Nat → Nat → List Nat
  | 0, _ => []
  | n + 1, v => toBytesBE n (v / 256) ++ [v % 256]

/-- Big-endian 32-bit words from a byte list whose length is a multiple of
four. -/
def bytesToWordsBE : List Nat → List Nat
  | b0 :: b1 :: b2 :: b3 :: rest =>
    (((b0 * 256 + b1) * 256 + b2) * 256 + b3) :: bytesToWordsBE rest
  | _ => []

/-- SHA-256 padding: append 0x80, zero bytes up to 56 mod 64, and the
64-bit big-endian bit length. -/
def sha256Pad (msg : List Nat) : List Nat :=
  let len := msg.length
  msg ++ [128] ++ List.replicate ((56 + 64 - ((len + 1) % 64)) % 64) 0 ++
    toBytesBE 8 (8 * len)

/-- Split a list into consecutive chunks of at most n elements, exactly as
repeated f.read(n) until an empty read. -/
def chunksOfList (n : Nat) (l : List Nat) : List (List Nat) :=
  if h1 : l = [] then []
  else if h2 : n = 0 then []
  else l.take n :: chunksOfList n (l.drop n)
termination_by l.length
decreasing_by
  have hpos : 0 < l.length := List.length_pos.mpr h1
  simp only [List.length_drop]
  omega

/-- The eight 32-bit words of the SHA-256 digest of a byte message. -/
def sha256Words (msg : List Nat) : List Nat :=
  (chunksOfList 16 (bytesToWordsBE (sha256Pad msg))).foldl sha256Compress
    sha256H0

/-- The 32 digest bytes of SHA-256. -/
def sha256Bytes (msg : List Nat) : List Nat :=
  ((sha256Words msg).map (toBytesBE 4)).flatten

/-- Lower-case hexadecimal digit for a value below 16. -/
def hexDigitChar (n : Nat) : Char :=
  if n < 10 then Char.ofNat (48 + n) else Char.ofNat (87 + n)

/-- Lower-case hexadecimal rendering of a byte list, two digits per byte. -/
def bytesToHexChars (bytes : List Nat) : List Char :=
  bytes.foldr
    (fun b acc => hexDigitChar (b / 16) :: hexDigitChar (b % 16) :: acc) []

/-- hashlib.sha256(msg).hexdigest(): the lower-case hex SHA-256 digest. -/
def sha256hex (msg : List Nat) : String :=
  String.mk (bytesToHexChars (sha256Bytes msg))

/-- The sixteen lower-case hexadecimal characters. -/
def hexLowerChars : List Char := String.data "0123456789abcdef"

/-- hashlib incremental hashing state: update appends the fed bytes. -/
def hashlibUpdate (state msg : List Nat) : List Nat := state ++ msg

/-- hexdigest of an incremental hashing state. -/
def hashlibHexdigest (state : List Nat) : String := sha256hex state

/-- The per-file hashing of QuizArchiveJob.execute (quiz_archive_job.py
lines 160-168): read the file in 4096-byte chunks, feed each chunk to
hashlib.sha256 via update, then take the hexdigest. -/
def hashFileContent (data : List Nat) : String :=
  hashlibHexdigest ((chunksOfList 4096 data).foldl hashlibUpdate [])

/-- A regular file in the job's temporary working directory: its path and
its byte content. The work directory is modelled by the list of its regular
files (glob.glob also yields directories, which os.path.isfile filters
out). -/
structure FsFile where
  path : String
  content : List Nat
  deriving DecidableEq, Repr

/-- The suffix appended to a file path for its hash sibling. -/
def shaSuffix : String := ".sha256"

/-- The bytes of a text write of a string. -/
def stringToBytes (s : String) : List Nat := s.data.map Char.toNat

/-- Read a file: the content of the first entry with the given path. -/
def fsLookup : List FsFile → String → Option (List Nat)
  | [], _ => none
  | f :: fs, p => if f.path = p then some f.content else fsLookup fs p

/-- open(p, mode w+) followed by a write: truncate the existing file or
create a new one. -/
def fsWrite : List FsFile → String → List Nat → List FsFile
  | [], p, d => [FsFile.mk p d]
  | f :: fs, p, d =>
    if f.path = p then FsFile.mk p d :: fs else f :: fsWrite fs p d

/-- One iteration of the hashing loop of QuizArchiveJob.execute
(quiz_archive_job.py lines 158-168): open the snapshot path, hash its
current content in 4096-byte chunks, and write the hexdigest to the sibling
path with the .sha256 suffix. -/
def hashStep (acc : List FsFile) (p : String) : List FsFile :=
  match fsLookup acc p with
  | some data =>
    fsWrite acc (p ++ shaSuffix) (stringToBytes (hashFileContent data))
  | none => acc

/-- The hashing phase of QuizArchiveJob.execute (quiz_archive_job.py lines
155-168): glob the working directory once, before any hash file is written,
then process each snapshot path in order. -/
def hashPhase (fs : List FsFile) : List FsFile :=
  (fs.map FsFile.path).foldl hashStep fs

/-- Helper: folding hashlib updates over chunks feeds their concatenation. -/
theorem foldl_hashlibUpdate (chunks : List (List Nat)) :
    ∀ acc : List Nat, chunks.foldl hashlibUpdate acc = acc ++ chunks.flatten := by
  induction chunks with
  | nil => intro acc; simp
  | cons c rest ih =>
    intro acc
    simp [hashlibUpdate, ih, List.append_assoc]

/-- Helper: rejoining the chunks of a list gives the list back. -/
theorem flatten_chunksOfList (n : Nat) (hn : 0 < n) (l : List Nat) :
    (chunksOfList n l).flatten = l := by
  rw [chunksOfList]
  split_ifs with h1 h2
  · rw [h1]; rfl
  · exact absurd h2 (Nat.pos_iff_ne_zero.mp hn)
  · simp only [List.flatten_cons]
    rw [flatten_chunksOfList n hn (l.drop n)]
    exact List.take_append_drop n l
termination_by l.length
decreasing_by
  have hpos : 0 < l.length := List.length_pos.mpr h1
  simp only [List.length_drop]
  omega

/-- Helper: chunked hashing computes the digest of the whole content. -/
theorem hashFileContent_eq_sha256hex (data : List Nat) :
    hashFileContent data = sha256hex data := by
  unfold hashFileContent hashlibHexdigest
  rw [foldl_hashlibUpdate, flatten_chunksOfList 4096 (by omega) data]
  rfl

/-- Helper: writing a file and reading it back gives the written content. -/
theorem fsLookup_fsWrite_self : ∀ (fs : List FsFile) (p : String)
    (d : List Nat), fsLookup (fsWrite fs p d) p = some d := by
  intro fs p d
  induction fs with
  | nil => simp [fsWrite, fsLookup]
  | cons f rest ih =>
    by_cases h : f.path = p
    · simp [fsWrite, h, fsLookup]
    · simp only [fsWrite, h, if_false]
      simp only [fsLookup, h, if_false]
      exact ih

/-- Helper: writing a file does not change any other path. -/
theorem fsLookup_fsWrite_ne : ∀ (fs : List FsFile) (p : String)
    (d : List Nat) (q : String), q ≠ p →
    fsLookup (fsWrite fs p d) q = fsLookup fs q := by
  intro fs p d q hq
  induction fs with
  | nil =>
    simp only [fsWrite, fsLookup]
    rw [if_neg (fun h => hq h.symm)]
  | cons f rest ih =>
    by_cases h : f.path = p
    · simp only [fsWrite, h, if_true]
      simp only [fsLookup]
      rw [if_neg (fun h2 => hq h2.symm), if_neg (fun h2 => hq (h ▸ h2).symm)]
    · simp only [fsWrite, h, if_false]
      simp only [fsLookup]
      by_cases h2 : f.path = q
      · rw [if_pos h2, if_pos h2]
      · rw [if_neg h2, if_neg h2]
        exact ih

/-- Helper: a hash step touches only the sibling path it writes. -/
theorem fsLookup_hashStep_ne (acc : List FsFile) (p q : String)
    (h : q ≠ p ++ shaSuffix) :
    fsLookup (hashStep acc p) q = fsLookup acc q := by
  unfold hashStep
  cases hl : fsLookup acc p with
  | none => rfl
  | some data => exact fsLookup_fsWrite_ne acc (p ++ shaSuffix) _ q h

/-- Helper: the hashing fold leaves every path that is not a sibling of a
snapshot path unchanged. -/
theorem hashPhase_fold_frame : ∀ (ps : List String) (acc : List FsFile)
    (q : String), (∀ p ∈ ps, q ≠ p ++ shaSuffix) →
    fsLookup (ps.foldl hashStep acc) q = fsLookup acc q := by
  intro ps
  induction ps with
  | nil => intro acc q _; rfl
  | cons r rest ih =>
    intro acc q hq
    rw [List.foldl_cons,
      ih (hashStep acc r) q (fun p hp => hq p (List.mem_cons_of_mem r hp)),
      fsLookup_hashStep_ne acc r q (hq r (List.mem_cons_self r rest))]

/-- Helper: strings with a common appended suffix are equal when the
results are. -/
theorem string_append_cancel {a b c : String} (h : a ++ c = b ++ c) :
    a = b := by
  apply String.ext
  have hd := congrArg String.data h
  simp only [String.data_append] at hd
  exact List.append_cancel_right hd

/-- Helper: processing all snapshot paths writes, for a path p holding data
at the time p is processed, the digest of data to the sibling of p, which
survives to the end of the fold. -/
theorem hashPhase_fold_main : ∀ (ps : List String), ps.Nodup →
    ∀ (acc : List FsFile) (p : String) (data : List Nat),
      p ∈ ps → (∀ r ∈ ps, p ≠ r ++ shaSuffix) →
      fsLookup acc p = some data →
      fsLookup (ps.foldl hashStep acc) (p ++ shaSuffix) =
        some (stringToBytes (hashFileContent data)) := by
  intro ps
  induction ps with
  | nil => intro _ acc p data hmem; exact absurd hmem (List.not_mem_nil p)
  | cons r rest ih =>
    intro hnd acc p data hmem hns hacc
    rw [List.foldl_cons]
    rcases List.mem_cons.mp hmem with heq | hmem2
    · subst heq
      have hstep : hashStep acc p =
          fsWrite acc (p ++ shaSuffix)
            (stringToBytes (hashFileContent data)) := by
        unfold hashStep
        rw [hacc]
      rw [hstep]
      have hframe := hashPhase_fold_frame rest
        (fsWrite acc (p ++ shaSuffix) (stringToBytes (hashFileContent data)))
        (p ++ shaSuffix)
        (fun r2 hr2 hcontra =>
          absurd (show p ∈ rest by
            rw [string_append_cancel hcontra]; exact hr2)
            (List.nodup_cons.mp hnd).1)
      rw [hframe]
      exact fsLookup_fsWrite_self acc (p ++ shaSuffix) _
    · apply ih (List.nodup_cons.mp hnd).2 (hashStep acc r) p data hmem2
        (fun r2 hr2 => hns r2 (List.mem_cons_of_mem r hr2))
      rw [fsLookup_hashStep_ne acc r p (hns r (List.mem_cons_self r rest))]
      exact hacc

/-- Helper: with no duplicate paths, reading a listed file gives its
content. -/
theorem fsLookup_of_nodup : ∀ (fs : List FsFile),
    (fs.map FsFile.path).Nodup →
    ∀ f ∈ fs, fsLookup fs f.path = some f.content := by
  intro fs
  induction fs with
  | nil => intro _ f hf; exact absurd hf (List.not_mem_nil f)
  | cons g rest ih =>
    intro hnd f hf
    rcases List.mem_cons.mp hf with heq | hmem
    · subst heq
      simp [fsLookup]
    · have hne : g.path ≠ f.path := by
        intro hcontra
        have hfm : f.path ∈ rest.map FsFile.path :=
          List.mem_map_of_mem FsFile.path hmem
        have hgnot := (List.nodup_cons.mp (by
          simpa using hnd : (g.path :: rest.map FsFile.path).Nodup)).1
        rw [hcontra] at hgnot
        exact hgnot hfm
      simp only [fsLookup, hne, if_false]
      exact ih (by
        have := (List.nodup_cons.mp (by
          simpa using hnd : (g.path :: rest.map FsFile.path).Nodup)).2
        exact this) f hmem

/-- Helper: big-endian serialisation produces exactly n bytes. -/
theorem toBytesBE_length : ∀ (n v : Nat), (toBytesBE n v).length = n := by
  intro n
  induction n with
  | zero => intro v; rfl
  | succ m ih => intro v; simp [toBytesBE, ih]

/-- Helper: big-endian serialisation produces bytes below 256. -/
theorem toBytesBE_lt : ∀ (n v : Nat), ∀ b ∈ toBytesBE n v, b < 256 := by
  intro n
  induction n with
  | zero => intro v b hb; exact absurd hb (List.not_mem_nil b)
  | succ m ih =>
    intro v b hb
    simp only [toBytesBE] at hb
    rcases List.mem_append.mp hb with h | h
    · exact ih (v / 256) b h
    · simp only [List.mem_singleton] at h
      subst h
      exact Nat.mod_lt v (by omega)

/-- Helper: a compression round keeps the 8-word state shape. -/
theorem sha256RoundFn_length (st : List Nat) (k w : Nat) :
    (sha256RoundFn st k w).length = 8 := rfl

/-- Helper: folding rounds keeps the 8-word state shape. -/
theorem foldl_rounds_length (l : List (Nat × Nat)) :
    ∀ st : List Nat, st.length = 8 →
      (l.foldl (fun s kw => sha256RoundFn s kw.1 kw.2) st).length = 8 := by
  induction l with
  | nil => intro st h; exact h
  | cons x rest ih => intro st _; exact ih _ (sha256RoundFn_length _ _ _)

/-- Helper: the compression function keeps the 8-word state shape. -/
theorem sha256Compress_length (st b : List Nat) (h : st.length = 8) :
    (sha256Compress st b).length = 8 := by
  unfold sha256Compress
  rw [List.length_zipWith, h,
    foldl_rounds_length (sha256K.zip (sha256Schedule b)) st h]
  rfl

/-- Helper: folding compressions from the initial value yields 8 words. -/
theorem foldl_compress_length : ∀ (blocks : List (List Nat))
    (st : List Nat), st.length = 8 →
    (blocks.foldl sha256Compress st).length = 8 := by
  intro blocks
  induction blocks with
  | nil => intro st h; exact h
  | cons b rest ih => intro st h; exact ih _ (sha256Compress_length st b h)

/-- Helper: the digest has 8 words. -/
theorem sha256Words_length (msg : List Nat) : (sha256Words msg).length = 8 :=
  foldl_compress_length _ sha256H0 rfl

/-- Helper: serialising words to bytes yields four bytes per word. -/
theorem flatten_map_toBytesBE_length : ∀ ws : List Nat,
    ((ws.map (toBytesBE 4)).flatten).length = 4 * ws.length := by
  intro ws
  induction ws with
  | nil => rfl
  | cons w rest ih =>
    simp only [List.map_cons, List.flatten_cons, List.length_append,
      toBytesBE_length, ih, List.length_cons]
    omega

/-- Helper: the digest has 32 bytes. -/
theorem sha256Bytes_length (msg : List Nat) :
    (sha256Bytes msg).length = 32 := by
  unfold sha256Bytes
  rw [flatten_map_toBytesBE_length, sha256Words_length]

/-- Helper: every digest byte is below 256. -/
theorem sha256Bytes_lt (msg : List Nat) : ∀ b ∈ sha256Bytes msg, b < 256 := by
  intro b hb
  unfold sha256Bytes at hb
  rcases List.mem_flatten.mp hb with ⟨s, hs, hbs⟩
  rcases List.mem_map.mp hs with ⟨w, _, rfl⟩
  exact toBytesBE_lt 4 w b hbs

/-- Helper: a hex digit of a value below 16 is a lower-case hex character. -/
theorem hexDigitChar_mem (n : Nat) (h : n < 16) :
    hexDigitChar n ∈ hexLowerChars := by
  interval_cases n <;> decide

/-- Helper: the hex rendering has two characters per byte. -/
theorem bytesToHexChars_length : ∀ bs : List Nat,
    (bytesToHexChars bs).length = 2 * bs.length := by
  intro bs
  induction bs with
  | nil => rfl
  | cons b rest ih =>
    simp only [bytesToHexChars, List.foldr_cons, List.length_cons] at ih ⊢
    omega

/-- Helper: the hex rendering of bytes below 256 uses only lower-case hex
characters. -/
theorem mem_bytesToHexChars : ∀ (bs : List Nat), (∀ b ∈ bs, b < 256) →
    ∀ c ∈ bytesToHexChars bs, c ∈ hexLowerChars := by
  intro bs
  induction bs with
  | nil => intro _ c hc; exact absurd hc (List.not_mem_nil c)
  | cons b rest ih =>
    intro hlt c hc
    have hb : b < 256 := hlt b (List.mem_cons_self b rest)
    simp only [bytesToHexChars, List.foldr_cons] at hc
    rcases List.mem_cons.mp hc with h | h
    · subst h; exact hexDigitChar_mem _ (by omega)
    · rcases List.mem_cons.mp h with h2 | h2
      · subst h2; exact hexDigitChar_mem _ (Nat.mod_lt b (by omega))
      · exact ih (fun x hx => hlt x (List.mem_cons_of_mem b hx)) c h2

/-- The one-file working directory used as the concrete counterexample
input. -/
def hashDemoFs : List FsFile := [FsFile.mk "f" [104, 105]]

/-- C4 counterexample: after the hashing phase, the working directory at
packaging time contains the regular file f.sha256 (and f's sibling does
exist), but no file f.sha256.sha256: so not every regular file present when
packaging starts has a .sha256 sibling, because the glob snapshot is taken
before the hash files are written. -/
theorem hash_phase_packaging_time_counterexample :
    (∃ g ∈ hashPhase hashDemoFs, g.path = "f.sha256") ∧
    fsLookup (hashPhase hashDemoFs) "f.sha256" ≠ none ∧
    fsLookup (hashPhase hashDemoFs) "f.sha256.sha256" = none := by decide

/-- C4 (amended): for every regular file F present when the hashing phase
starts (the glob snapshot), assuming distinct paths and that no file of the
snapshot is itself named like a hash sibling of another, the phase leaves a
sibling F.sha256 whose content is the lower-case hexadecimal SHA-256 digest
of F's bytes; the 4096-byte chunked computation equals the digest of the
whole content, and the digest text has 64 characters, all lower-case hex. -/
theorem hash_phase_snapshot_spec (fs : List FsFile) (f : FsFile)
    (hmem : f ∈ fs)
    (hnodup : (fs.map FsFile.path).Nodup)
    (hnosha : ∀ g ∈ fs, ∀ g2 ∈ fs, g.path ≠ g2.path ++ shaSuffix) :
    fsLookup (hashPhase fs) (f.path ++ shaSuffix) =
      some (stringToBytes (sha256hex f.content)) ∧
    hashFileContent f.content = sha256hex f.content ∧
    (sha256hex f.content).data.length = 64 ∧
    (∀ c ∈ (sha256hex f.content).data, c ∈ hexLowerChars) := by
  have hchunks := hashFileContent_eq_sha256hex f.content
  refine ⟨?_, hchunks, ?_, ?_⟩
  · unfold hashPhase
    rw [← hchunks]
    refine hashPhase_fold_main (fs.map FsFile.path) hnodup fs f.path
      f.content (List.mem_map_of_mem FsFile.path hmem) ?_
      (fsLookup_of_nodup fs hnodup f hmem)
    intro r hr
    rcases List.mem_map.mp hr with ⟨g2, hg2, rfl⟩
    exact hnosha f hmem g2 hg2
  · show (bytesToHexChars (sha256Bytes f.content)).length = 64
    rw [bytesToHexChars_length, sha256Bytes_length]
  · intro c hc
    exact mem_bytesToHexChars _ (sha256Bytes_lt f.content) c hc

/-- Witness for hash_phase_snapshot_spec on the one-file directory. -/
theorem hash_phase_snapshot_spec_witness :
    fsLookup (hashPhase hashDemoFs) ("f" ++ shaSuffix) =
      some (stringToBytes (sha256hex [104, 105])) ∧
    hashFileContent ([104, 105] : List Nat) = sha256hex [104, 105] ∧
    (sha256hex ([104, 105] : List Nat)).data.length = 64 ∧
    (∀ c ∈ (sha256hex ([104, 105] : List Nat)).data, c ∈ hexLowerChars) :=
  hash_phase_snapshot_spec hashDemoFs (FsFile.mk "f" [104, 105])
    (by decide) (by decide) (by decide)

/-- Insert one status assignment after the first i entries of a list of
assignments. -/
def insertStatusAt (i : Nat) (x : JobStatus) (l : List JobStatus) :
    List JobStatus :=
  l.take i ++ x :: l.drop i

/-- All status values assigned to a job under an arbitrary interleaving of
the admission handler with the worker thread: UNINITIALIZED from
QuizArchiveJob.__init__, then execute's assignments with the handler's
single AWAITING_PROCESSING assignment (moodle_quiz_archive_worker.py line
173) landing after i of them. The handler enqueues the job with put_nowait
at line 171 BEFORE setting AWAITING_PROCESSING, and the blocked worker
thread may dequeue the job and run execute (whose first action is
set_status(RUNNING) at quiz_archive_job.py line 134) at any moment after
the enqueue, so every value of i is a schedule the code permits; i = 0 is
the race-free order in which the handler's assignment lands before execute
begins. -/
def jobStatusTraceRaced (s : ExecScenario) (i : Nat) : List JobStatus :=
  JobStatus.UNINITIALIZED ::
    insertStatusAt i JobStatus.AWAITING_PROCESSING
      ((executeTrace s).map Prod.fst)

/-- The scenario of an empty job in which every stage completes at once. -/
def scenarioAllOk : ExecScenario :=
  ⟨0, StageFate.ok, StageFate.ok, false, StageFate.ok, StageFate.ok,
    StageFate.ok⟩

/-- C3 counterexample: the handler enqueues before it sets
AWAITING_PROCESSING, so the code permits schedules in which execute's
RUNNING is assigned first and the handler's AWAITING_PROCESSING assignment
lands later: with one execute assignment in between the trace is
UNINITIALIZED, RUNNING, AWAITING_PROCESSING, FINALIZING, FINISHED, which is
not a prefix of the lifecycle word (RUNNING precedes AWAITING_PROCESSING),
and with the handler delayed past the end of a fast job the trace is
UNINITIALIZED, RUNNING, FINALIZING, FINISHED, AWAITING_PROCESSING, in which
the terminal FINISHED is overwritten by a later set_status call. -/
theorem status_race_nonmonotone_counterexample :
    jobStatusTraceRaced scenarioAllOk 1 =
      [JobStatus.UNINITIALIZED, JobStatus.RUNNING,
        JobStatus.AWAITING_PROCESSING, JobStatus.FINALIZING,
        JobStatus.FINISHED] ∧
    ¬ LifecycleOk [JobStatus.UNINITIALIZED, JobStatus.RUNNING,
        JobStatus.AWAITING_PROCESSING, JobStatus.FINALIZING,
        JobStatus.FINISHED] ∧
    jobStatusTraceRaced scenarioAllOk 3 =
      [JobStatus.UNINITIALIZED, JobStatus.RUNNING, JobStatus.FINALIZING,
        JobStatus.FINISHED, JobStatus.AWAITING_PROCESSING] ∧
    ¬ TerminalOnlyLast [JobStatus.UNINITIALIZED, JobStatus.RUNNING,
        JobStatus.FINALIZING, JobStatus.FINISHED,
        JobStatus.AWAITING_PROCESSING] := by
  refine ⟨rfl, ?_, rfl, ?_⟩
  · rintro ⟨mid, -, hcase | ⟨p, rest, -, hfail | hfail⟩⟩
    · have h0 : lifecycleWord mid = JobStatus.UNINITIALIZED ::
          JobStatus.AWAITING_PROCESSING :: JobStatus.RUNNING ::
          (mid ++ [JobStatus.FINALIZING, JobStatus.FINISHED]) := rfl
      rw [h0] at hcase
      injection hcase with _ h1
      injection h1 with h2 _
      exact JobStatus.noConfusion h2
    · have h := congrArg List.getLast? hfail
      rw [List.getLast?_concat] at h
      exact absurd h (by decide)
    · have h := congrArg List.getLast? hfail
      rw [List.getLast?_concat] at h
      exact absurd h (by decide)
  · rintro ⟨p, last, heq, hterm, -⟩
    have h := congrArg List.getLast? heq
    rw [List.getLast?_concat] at h
    have h2 : some JobStatus.AWAITING_PROCESSING = some last := by
      rw [← h]; rfl
    injection h2 with h3
    rw [← h3] at hterm
    exact absurd hterm (by decide)

/-- C3 (amended): provided the admission handler's AWAITING_PROCESSING
assignment lands before the worker thread's first status assignment (the
race-free schedule i = 0; the code also permits later placements, refuted
by the counterexample above), the sequence of status values assigned to a
job is a full lifecycle word UNINITIALIZED, AWAITING_PROCESSING, RUNNING,
(WAITING_FOR_BACKUP | RUNNING)*, FINALIZING, FINISHED, or an initial
segment of one ending in FAILED or TIMEOUT, and the trace ends at its
unique terminal status, which no later set_status call overwrites. -/
theorem job_status_trace_lifecycle_racefree_spec (s : ExecScenario) :
    LifecycleOk (jobStatusTraceRaced s 0) ∧
    TerminalOnlyLast (jobStatusTraceRaced s 0) := by
  have h : jobStatusTraceRaced s 0 = jobStatusTrace s := rfl
  rw [h]
  exact jobStatusTrace_lifecycle_aux s

/-- The mutable per-job state of a QuizArchiveJob
(src/archiveworker/quiz_archive_job.py lines 49-58): the current status and
statusextras, the bound descriptor, the working directory and the map of
archived attempts (the jobid, logger and timestamp fields carry no job
data). -/
structure QuizArchiveJobState where
  status : JobStatus
  statusextras : Option Nat
  descr : JobDescriptor
  workdir : Option String
  archived_attempts : List (Int × String)
  deriving DecidableEq, Repr

/-- QuizArchiveJob.__init__ (quiz_archive_job.py lines 49-65): status starts
UNINITIALIZED, statusextras and workdir are None, archived_attempts is
empty, and the descriptor is stored after the demo-mode truncation of
quizArchiveJobInitDescr. -/
def quizArchiveJobInit (demoMode : Bool) (d : JobDescriptor) :
    QuizArchiveJobState :=
  { status := JobStatus.UNINITIALIZED
    statusextras := none
    descr := quizArchiveJobInitDescr demoMode d
    workdir := none
    archived_attempts := [] }

/-- The effect of QuizArchiveJob.execute on the job state, field by field
from src/archiveworker/quiz_archive_job.py: execute assigns self.workdir
(line 138); set_status assigns self.status and self.statusextras (lines
120-121, invoked at lines 134, 153, 196, 200, 203 and from the stage
helpers), so the final status is the last entry of the execute trace;
_render_quiz_attempt appends to self.archived_attempts (line 409). No
statement of execute or of any helper it calls assigns self.descr or any
attribute reachable from it: the descriptor is only read. finalExtras
abstracts the statusextras of the last set_status call and archived the
attempt entries recorded during the run. -/
def executeJobState (s : ExecScenario) (tmpdir : String)
    (finalExtras : Option Nat) (archived : List (Int × String))
    (st : QuizArchiveJobState) : QuizArchiveJobState :=
  { st with
    status := (executeTrace s).foldl (fun _ u => u.1) st.status
    statusextras := finalExtras
    workdir := some tmpdir
    archived_attempts := st.archived_attempts ++ archived }

/-- C9 (amended): an ArchiveJobDescriptor is not mutated by the job
operations except for the demo-mode truncation at construction:
QuizArchiveJob construction leaves the descriptor unchanged iff demo mode
is off, the quiz_attempts task is absent, or it holds at most 10
attemptids; every attribute except the quiz_attempts slot is always
preserved, and the quiz_attempts slot is the original with attemptids
truncated to the first 10 exactly when demo mode is on. Executing the job
leaves the descriptor (attemptids and tasks included) untouched: execute
and its helpers write only the job's own status, statusextras, workdir and
archived_attempts fields. -/
theorem job_init_descriptor_frame_spec (demoMode : Bool) (d : JobDescriptor)
    (s : ExecScenario) (tmpdir : String) (finalExtras : Option Nat)
    (archived : List (Int × String)) (st : QuizArchiveJobState) :
    (quizArchiveJobInitDescr demoMode d = d ↔
      (demoMode = false ∨ d.quiz_attempts = none ∨
        ∃ t, d.quiz_attempts = some t ∧ t.attemptids.length ≤ 10)) ∧
    (quizArchiveJobInitDescr demoMode d).archive_filename =
      d.archive_filename ∧
    (quizArchiveJobInitDescr demoMode d).taskid = d.taskid ∧
    (quizArchiveJobInitDescr demoMode d).courseid = d.courseid ∧
    (quizArchiveJobInitDescr demoMode d).cmid = d.cmid ∧
    (quizArchiveJobInitDescr demoMode d).quizid = d.quizid ∧
    (quizArchiveJobInitDescr demoMode d).moodle_backups = d.moodle_backups ∧
    (quizArchiveJobInitDescr demoMode d).quiz_attempts =
      (if demoMode then
        d.quiz_attempts.map
          (fun t => { t with attemptids := t.attemptids.take 10 })
      else d.quiz_attempts) ∧
    (quizArchiveJobInit demoMode d).descr =
      quizArchiveJobInitDescr demoMode d ∧
    (executeJobState s tmpdir finalExtras archived st).descr = st.descr ∧
    (executeJobState s tmpdir finalExtras archived st).archived_attempts =
      st.archived_attempts ++ archived := by
  obtain ⟨h1, h2, h3, h4, h5, h6, h7, h8⟩ := jobInitDescr_frame_aux demoMode d
  exact ⟨h1, h2, h3, h4, h5, h6, h7, h8, rfl, rfl, rfl⟩
